import Mathlib

/-!
Verification development for the `mlflux` command-line helper.

The repository consists of `mlflux/cli/run.py` (argument parsing, project
copying with gitignore filtering, optional docker image build, MLproject
manifest rewriting, and invocation of the mlflow project runner) and
`mlflux/logging.py` (a parameter-capturing decorator).  Below, each Python
function is embedded as a Lean definition; side effects are modelled as an
explicit trace of events, Python exceptions and `sys.exit` as an `Except`
error, and the external systems (docker client, mlflow, uuid generation,
gitignore matcher) as parameters of the model.
-/

/-- Python values that occur in the modelled code: strings, booleans
(the `-A` branch of `_user_args_to_dict` stores `True`), and
`inspect.Parameter.empty` (the default of a parameter with no default). -/
inductive PyVal where
  | str (s : String)
  | bool (b : Bool)
  | empty
deriving DecidableEq, Repr

/-- Python exceptions relevant to the modelled code. -/
inductive PyErr where
  | keyError (k : String)
  | attributeError
  | sysExit (msg : String)
deriving DecidableEq, Repr

/-- Split a character list at the first occurrence of `'='`:
`none` when no `'='` occurs, otherwise the parts before and after the
first `'='`.  This is the semantics of Python's `s.split("=", maxsplit=1)`
restricted to the one-character separator used by `_user_args_to_dict`. -/
def splitEq1Chars : List Char → Option (List Char × List Char)
  | [] => none
  | c :: cs =>
    if c = '=' then some ([], cs)
    else
      match splitEq1Chars cs with
      | none => none
      | some (a, b) => some (c :: a, b)

/-- Embedding of `arg.split("=", maxsplit=1)` from `_user_args_to_dict`. -/
def pySplitEq1 (s : String) : List String :=
  match splitEq1Chars s.toList with
  | none => [s]
  | some (a, b) => [String.mk a, String.mk b]

/-- The substring of `s` before the first `'='` (the whole of `s` when no
`'='` occurs).  Used to state claims about parameter names. -/
def beforeEq (s : String) : String :=
  String.mk (s.toList.takeWhile (fun c => c ≠ '='))

/-- The substring of `s` after the first `'='`. -/
def afterEq (s : String) : String :=
  String.mk ((s.toList.dropWhile (fun c => c ≠ '=')).tail)

/-- Whether a dictionary (modelled as an association list built in
insertion order) already has an entry for `name`; embeds Python's
`name in user_dict`. -/
def hasKey (d : List (String × PyVal)) (name : String) : Bool :=
  d.any (fun p => p.1 == name)

/-- The `eprint`ed message for a malformed `-P`/`-A` argument. -/
def invalidFormatMsg (argument_type arg : String) : String :=
  "Invalid format for -" ++ argument_type ++ " parameter: '" ++ arg ++
    "'. Use -" ++ argument_type ++ " name=value."

/-- The `eprint`ed message for a repeated parameter name. -/
def repeatedParamMsg (name : String) : String :=
  "Repeated parameter: '" ++ name ++ "'"

/-- The loop body of `_user_args_to_dict`: processes the remaining
arguments against the accumulated dictionary.  An `eprint` followed by
`sys.exit(1)` is modelled as `Except.error` carrying the message printed
to standard error. -/
def userArgsLoop (argument_type : String) :
    List String → List (String × PyVal) →
    Except String (List (String × PyVal))
  | [], user_dict => .ok user_dict
  | arg :: rest, user_dict =>
    let split := pySplitEq1 arg
    let nv : Except String (String × PyVal) :=
      if h : split.length = 1 ∧ argument_type = "A" then
        .ok (split.get ⟨0, by have h1 := h.1; omega⟩, .bool true)
      else if h : split.length = 2 then
        .ok (split.get ⟨0, by omega⟩, .str (split.get ⟨1, by omega⟩))
      else
        .error (invalidFormatMsg argument_type arg)
    match nv with
    | .error e => .error e
    | .ok (name, value) =>
      if hasKey user_dict name then
        .error (repeatedParamMsg name)
      else
        userArgsLoop argument_type rest (user_dict ++ [(name, value)])

/-- Embedding of `_user_args_to_dict(arguments, argument_type)` from
`mlflux/cli/run.py`.  `Except.error msg` models printing `msg` to standard
error followed by `sys.exit(1)`; `Except.ok d` models returning the
dictionary `d` (an association list in insertion order). -/
def user_args_to_dict (arguments : List String) (argument_type : String) :
    Except String (List (String × PyVal)) :=
  userArgsLoop argument_type arguments []

/-- An entry-points entry of an MLproject manifest: a mapping that may or
may not carry a `command` key. -/
structure EntryPoint where
  command : Option String
deriving DecidableEq, Repr

/-- The `docker_env` block of an MLproject manifest; `none` fields model
absent YAML keys.  `dockerfileKey` is the optional `Dockerfile` key. -/
structure DockerEnv where
  image : Option String
  dockerfileKey : Option String
  volumes : Option (List String)
deriving DecidableEq, Repr

/-- A parsed MLproject manifest, with `none` modelling absent keys. -/
structure MLProject where
  docker_env : Option DockerEnv
  entry_points : Option (List (String × EntryPoint))
deriving DecidableEq, Repr

/-- A file-system tree entry: a plain file or a directory with entries. -/
inductive FTree where
  | file (name : String)
  | dir (name : String) (children : List FTree)
deriving Repr

/-- The name of a tree entry. -/
def FTree.name : FTree → String
  | .file n => n
  | .dir n _ => n

/-- Embedding of `os.path.join` as used in this model; an empty base
stands for the directory itself. -/
def pathJoin (a b : String) : String :=
  if a = "" then b else a ++ "/" ++ b

/-- The `ignore` callback built in `_copy_from_uri` when a `.gitignore`
file exists: from `names` select those matched by the gitignore rules at
their joined path, plus any entry named `.git`. -/
def ignoreFn (gitMatch : String → Bool) (src : String) (names : List String) :
    List String :=
  names.filter (fun f => gitMatch (pathJoin src f) || f == ".git")

/-- Apply an optional ignore callback, as `shutil.copytree` does: with no
callback no name is ignored. -/
def ignNames (ign : Option (String → List String → List String))
    (path : String) (names : List String) : List String :=
  match ign with
  | none => []
  | some g => g path names

mutual
/-- Copy of one tree entry under `shutil.copytree` semantics: a directory
recursively copies its entries after filtering by the ignore callback. -/
def copyOne (ign : Option (String → List String → List String)) :
    String → FTree → FTree
  | _, .file n => .file n
  | path, .dir n cs =>
    .dir n (copyKept ign (pathJoin path n)
      (ignNames ign (pathJoin path n) (cs.map FTree.name)) cs)

/-- Copy of the entries of one directory, skipping ignored names. -/
def copyKept (ign : Option (String → List String → List String))
    (path : String) (ignored : List String) : List FTree → List FTree
  | [] => []
  | e :: es =>
    if ignored.contains e.name then copyKept ign path ignored es
    else copyOne ign path e :: copyKept ign path ignored es
end

/-- Embedding of `shutil.copytree(srcPath, dst, ignore=ign)`: the ignore callback is
applied to the top-level listing and then recursively inside each copied
directory. -/
def copytree (ign : Option (String → List String → List String))
    (srcPath : String) (entries : List FTree) : List FTree :=
  copyKept ign srcPath (ignNames ign srcPath (entries.map FTree.name)) entries

mutual
/-- All entries reachable in a tree, as pairs of their full path and their
name. -/
def entryWithPaths (path : String) : FTree → List (String × String)
  | .file n => [(pathJoin path n, n)]
  | .dir n cs => (pathJoin path n, n) :: entriesWithPaths (pathJoin path n) cs

/-- All entries reachable in a forest, as pairs of path and name. -/
def entriesWithPaths (path : String) : List FTree → List (String × String)
  | [] => []
  | e :: es => entryWithPaths path e ++ entriesWithPaths path es
end

/-- The full paths of all entries reachable in a forest; models the set of
paths that exist inside a directory. -/
def treePaths (path : String) (es : List FTree) : List String :=
  (entriesWithPaths path es).map Prod.fst

/-- Observable side effects of the `run` command, in the order they are
performed.  `readKey k` records an attempted read of the manifest key with
dotted path `k`; `writeManifest m` records writing manifest content `m`
back to the MLproject path; the remaining constructors record filesystem,
docker-client and mlflow-client calls. -/
inductive Event where
  | mkTempDir (p : String)
  | rmTempDir (p : String)
  | copyTree (src dst : String)
  | makeArchive (zipPath : String)
  | readKey (k : String)
  | dockerBuild (dockerfile tag : String)
  | writeManifest (m : MLProject)
  | writeFile (path content : String)
  | projectsRun (uri ep : String) (params : List (String × PyVal))
  | startRun (runId : String)
  | logArtifact (path : String) (dest : Option String)
deriving DecidableEq, Repr

/-- Sequencing of two traced, fallible steps: on failure the first step's
trace is kept and the failure propagates; on success the traces are
concatenated.  Models straight-line Python code where an exception aborts
the remainder. -/
def stepE {α β : Type} (a : List Event × Except PyErr α)
    (f : α → List Event × Except PyErr β) : List Event × Except PyErr β :=
  match a with
  | (tr, .error e) => (tr, .error e)
  | (tr, .ok x) => ((tr ++ (f x).1), (f x).2)

/-- Embedding of `_copy_from_uri(uri, project_path, output_path)`:
when a `.gitignore` file exists at the source root the copy filters with
`ignoreFn`, otherwise `ignore=None` and nothing is filtered; then the
copied directory is archived as `src.zip` in the output directory.
Returns the copied tree and the archive path. -/
def copy_from_uri (gitMatch : String → Bool) (uri : String)
    (entries : List FTree) (projectPath outputPath : String) :
    List Event × (List FTree × String) :=
  let ign : Option (String → List String → List String) :=
    if (entries.map FTree.name).contains ".gitignore" then
      some (ignoreFn gitMatch)
    else
      none
  ([.copyTree uri projectPath, .makeArchive (outputPath ++ "/src.zip")],
   (copytree ign uri entries, outputPath ++ "/src.zip"))

/-- Concatenation of the `stream` entries of the docker build log, as
written to `docker.stdout.txt` (entries without a `stream` key are
skipped). -/
def streamConcat (logs : List (Option String)) : String :=
  logs.foldl (fun acc o => acc ++ o.getD "") ""

/-- Embedding of `_setup_docker_image(project_path, output_path)`.
`manifest` is the parsed MLproject content, `files` the paths existing in
the project directory, `uuid` the generated tag suffix and `buildLogs`
the docker client's build log (both external inputs).  A missing
`docker_env` or `image` key raises `KeyError`; a missing `Dockerfile` key
falls back to the file named `Dockerfile`.  The image is built only when
the tag has no `:` and the build file exists; in that case the manifest is
rewritten with the new tag and the log stream is captured to a file. -/
def setup_docker_image (uuid : String) (buildLogs : List (Option String))
    (outputPath : String) (manifest : MLProject) (files : List String) :
    List Event × Except PyErr (MLProject × Option String) :=
  match manifest.docker_env with
  | none => ([.readKey "docker_env.image"], .error (.keyError "docker_env"))
  | some de =>
    match de.image with
    | none => ([.readKey "docker_env.image"], .error (.keyError "image"))
    | some tag =>
      let dockerfile :=
        match de.dockerfileKey with
        | some d => d
        | none => "Dockerfile"
      let tr0 : List Event :=
        [.readKey "docker_env.image", .readKey "docker_env.Dockerfile"]
      if (!tag.toList.contains ':') && files.contains dockerfile then
        let newTag := tag ++ ":" ++ uuid
        let m2 : MLProject :=
          { manifest with docker_env := some { de with image := some newTag } }
        let logsPath := outputPath ++ "/docker.stdout.txt"
        (tr0 ++ [.dockerBuild dockerfile newTag, .writeManifest m2,
                 .writeFile logsPath (streamConcat buildLogs)],
         .ok (m2, some logsPath))
      else
        (tr0, .ok (manifest, none))

/-- Lookup of an entry point by name in the `entry_points` mapping. -/
def lookupEp : List (String × EntryPoint) → String → Option EntryPoint
  | [], _ => none
  | p :: eps, n => if p.1 = n then some p.2 else lookupEp eps n

/-- Update of the named entry point's `command` value, keeping every other
entry unchanged. -/
def setCommand (eps : List (String × EntryPoint)) (n cmd : String) :
    List (String × EntryPoint) :=
  eps.map (fun p => if p.1 == n then (p.1, { p.2 with command := some cmd }) else p)

/-- The content written to `wrapper.sh`: the original command with stdout
and stderr teed into files under `/output`. -/
def wrapperText (command : String) : String :=
  command ++ " $@ 1> >(tee /output/stdout.txt) 2> >(tee /output/stderr.txt >&2)"

/-- Embedding of `_setup_entrypoint_output(project_path, entry_point,
output_path)`: appends `<output>:/output` to `docker_env.volumes`
(defaulting to an empty list), writes `wrapper.sh` wrapping the entry
point's command, replaces that command by `bash wrapper.sh`, and writes
the manifest back.  Missing `docker_env`, `entry_points`, entry-point or
`command` keys raise `KeyError`. -/
def setup_entrypoint_output (projectPath ep outputPath : String)
    (manifest : MLProject) :
    List Event × Except PyErr (MLProject × String × String) :=
  match manifest.docker_env with
  | none => ([.readKey "docker_env.volumes"], .error (.keyError "docker_env"))
  | some de =>
    let volumes := de.volumes.getD [] ++ [outputPath ++ ":/output"]
    let m1 : MLProject :=
      { manifest with docker_env := some { de with volumes := some volumes } }
    let tr0 : List Event :=
      [.readKey "docker_env.volumes",
       .readKey ("entry_points." ++ ep ++ ".command")]
    match m1.entry_points with
    | none => (tr0, .error (.keyError "entry_points"))
    | some eps =>
      match lookupEp eps ep with
      | none => (tr0, .error (.keyError ep))
      | some e =>
        match e.command with
        | none => (tr0, .error (.keyError "command"))
        | some command =>
          let m2 : MLProject :=
            { m1 with entry_points := some (setCommand eps ep "bash wrapper.sh") }
          (tr0 ++ [.writeFile (projectPath ++ "/wrapper.sh") (wrapperText command),
                   .writeManifest m2],
           .ok (m2, outputPath ++ "/stdout.txt", outputPath ++ "/stderr.txt"))

/-- Embedding of `mlflow.log_artifact(p.as_posix(), dest)` where `p` may
be `None`: calling `as_posix()` on `None` raises `AttributeError`. -/
def log_artifact (p : Option String) (dest : Option String) :
    List Event × Except PyErr Unit :=
  match p with
  | none => ([], .error .attributeError)
  | some path => ([.logArtifact path dest], .ok ())

/-- The inputs of one invocation of the `run` command: its CLI arguments,
the source tree at `uri`, the gitignore predicate, the parsed MLproject
content of the copied project, the names the OS picks for the two
temporary directories, and the external systems' outputs (generated uuid,
docker build log, mlflow run id). -/
structure RunInputs where
  param_list : List String
  entry_point : String
  uri : String
  srcEntries : List FTree
  gitMatch : String → Bool
  manifest : MLProject
  projectDir : String
  outputDir : String
  uuid : String
  buildLogs : List (Option String)
  runId : String

/-- The body of the `run` command executed inside the two
`TemporaryDirectory` context managers: copy the project, set up the docker
image and the entry-point output capture, invoke `mlflow.projects.run`,
and log the artifacts.  An exception aborts the remaining steps. -/
def runBody (inp : RunInputs) (params_dict : List (String × PyVal)) :
    List Event × Except PyErr Unit :=
  stepE ((copy_from_uri inp.gitMatch inp.uri inp.srcEntries
            inp.projectDir inp.outputDir).1,
         .ok (copy_from_uri inp.gitMatch inp.uri inp.srcEntries
            inp.projectDir inp.outputDir).2) (fun cr =>
  stepE (setup_docker_image inp.uuid inp.buildLogs inp.outputDir
           inp.manifest (treePaths "" cr.1)) (fun dr =>
  stepE (setup_entrypoint_output inp.projectDir inp.entry_point
           inp.outputDir dr.1) (fun er =>
  stepE ([.projectsRun inp.projectDir inp.entry_point params_dict],
         .ok ()) (fun _ =>
  stepE ([.startRun inp.runId], .ok ()) (fun _ =>
  stepE (log_artifact (some cr.2) none) (fun _ =>
  stepE (log_artifact dr.2 (some "logs")) (fun _ =>
  stepE (log_artifact (some er.2.1) (some "logs")) (fun _ =>
  log_artifact (some er.2.2) (some "logs")))))))))

/-- Embedding of the `run` command from `mlflux/cli/run.py`: parse `-P`
arguments (exiting before any directory is created on failure), create the
two temporary directories, run the body, and remove the directories on
exit along every path, as the context managers do even on an exception.
Returns the full event trace and the outcome. -/
def runCmd (inp : RunInputs) : List Event × Except PyErr Unit :=
  match user_args_to_dict inp.param_list "P" with
  | .error msg => ([], .error (.sysExit msg))
  | .ok params_dict =>
    ([Event.mkTempDir inp.projectDir, Event.mkTempDir inp.outputDir] ++
       (runBody inp params_dict).1 ++
       [Event.rmTempDir inp.outputDir, Event.rmTempDir inp.projectDir],
     (runBody inp params_dict).2)

/-- Lookup of a key in a Python dict modelled as an association list. -/
def dictGet : List (String × PyVal) → String → Option PyVal
  | [], _ => none
  | p :: d, k => if p.1 = k then some p.2 else dictGet d k

/-- Embedding of the Python dict merge `{**d1, **d2}`: the keys of `d1` in
order, each with the value from `d2` when `d2` has the key, followed by
the keys of `d2` not in `d1`, in order. -/
def pyDictUnion (d1 d2 : List (String × PyVal)) : List (String × PyVal) :=
  d1.map (fun p => (p.1, (dictGet d2 p.1).getD p.2)) ++
    d2.filter (fun p => !hasKey d1 p.1)

/-- Embedding of the wrapper produced by `log_input_params(f)` from
`mlflux/logging.py`, applied to keyword arguments `kwargs`.  The Python
function `f` is modelled by its signature `sigParams` (each parameter name
with its default value, `PyVal.empty` for a parameter without one, as
`inspect.signature(f).parameters` yields them) and its behaviour `f` on
keyword arguments.  The result is the dictionary passed to
`mlflow.log_params` together with the wrapper's return value. -/
def log_input_params (sigParams : List (String × PyVal))
    (f : List (String × PyVal) → PyVal) (kwargs : List (String × PyVal)) :
    List (String × PyVal) × PyVal :=
  let default_params := sigParams
  let params := pyDictUnion default_params kwargs
  (params, f kwargs)

/-- The build file name `_setup_docker_image` resolves: the value of the
`docker_env.Dockerfile` key, or `Dockerfile` when the key is absent. -/
def dockerfileName (de : DockerEnv) : String :=
  match de.dockerfileKey with
  | some d => d
  | none => "Dockerfile"

/-- The first manifest key required by the `run` command that is missing,
in the order the command looks keys up; `none` when all required keys are
present.  (`docker_env.Dockerfile` is not required.) -/
def firstMissingKey (m : MLProject) (ep : String) : Option String :=
  match m.docker_env with
  | none => some "docker_env"
  | some de =>
    match de.image with
    | none => some "image"
    | some _ =>
      match m.entry_points with
      | none => some "entry_points"
      | some eps =>
        match lookupEp eps ep with
        | none => some ep
        | some e =>
          match e.command with
          | none => some "command"
          | some _ => none

/-- Whether an event is a docker image build. -/
def isDockerBuild : Event → Bool
  | .dockerBuild _ _ => true
  | _ => false

/-- Whether an event creates or removes a temporary directory. -/
def isTempEvent : Event → Bool
  | .mkTempDir _ => true
  | .rmTempDir _ => true
  | _ => false

/-- The dotted key paths the specification says the run command reads from
the manifest: `docker_env.image`, optionally `docker_env.Dockerfile`, and
`entry_points.<entry-point>.command`. -/
def specReadKeys (ep : String) : List String :=
  ["docker_env.image", "docker_env.Dockerfile",
   "entry_points." ++ ep ++ ".command"]

/-- A concrete manifest with all keys the run command requires, an image
tag without `:`, no `Dockerfile` key and no `volumes` key. -/
def demoManifest : MLProject :=
  { docker_env := some { image := some "img", dockerfileKey := none,
                         volumes := none },
    entry_points := some [("main", { command := some "python train.py" })] }

/-- A concrete invocation of the run command on a project with a
`Dockerfile`, used to evaluate the model on one input. -/
def demoInp : RunInputs :=
  { param_list := ["alpha=0.1", "b=2"]
    entry_point := "main"
    uri := "/src/proj"
    srcEntries := [FTree.file "Dockerfile", FTree.file "MLproject"]
    gitMatch := fun _ => false
    manifest := demoManifest
    projectDir := "/tmp/p"
    outputDir := "/tmp/o"
    uuid := "u1"
    buildLogs := [some "step1\n", none, some "step2\n"]
    runId := "r1" }

/-- The same invocation except that the manifest's image tag already
contains a `:`; the working copy still contains a `Dockerfile`. -/
def noBuildInp : RunInputs :=
  { demoInp with
    manifest :=
      { demoManifest with
        docker_env := some { image := some "img:1", dockerfileKey := none,
                             volumes := none } } }

/-! ## Lemmas about argument splitting -/

theorem splitEq1Chars_of_mem (l : List Char) (h : '=' ∈ l) :
    splitEq1Chars l =
      some (l.takeWhile (fun c => c ≠ '='),
            (l.dropWhile (fun c => c ≠ '=')).tail) := by
  induction l with
  | nil => simp at h
  | cons c cs ih =>
    by_cases hc : c = '='
    · subst hc
      simp [splitEq1Chars, List.takeWhile_cons, List.dropWhile_cons]
    · have h' : '=' ∈ cs := by
        rcases List.mem_cons.mp h with h1 | h1
        · exact absurd h1.symm hc
        · exact h1
      simp [splitEq1Chars, hc, ih h', List.takeWhile_cons,
        List.dropWhile_cons]

theorem splitEq1Chars_of_not_mem (l : List Char) (h : '=' ∉ l) :
    splitEq1Chars l = none := by
  induction l with
  | nil => simp [splitEq1Chars]
  | cons c cs ih =>
    have hc : ¬ c = '=' := fun hc => h (hc ▸ List.mem_cons_self c cs)
    have h' : '=' ∉ cs := fun hm => h (List.mem_cons_of_mem c hm)
    simp [splitEq1Chars, hc, ih h']

theorem pySplitEq1_of_mem (s : String) (h : '=' ∈ s.toList) :
    pySplitEq1 s = [beforeEq s, afterEq s] := by
  have h2 : splitEq1Chars s.data =
      some (s.data.takeWhile (fun c => c ≠ '='),
            (s.data.dropWhile (fun c => c ≠ '=')).tail) :=
    splitEq1Chars_of_mem s.data h
  simp [pySplitEq1, h2, beforeEq, afterEq, String.toList]

theorem pySplitEq1_of_not_mem (s : String) (h : '=' ∉ s.toList) :
    pySplitEq1 s = [s] := by
  have h2 : splitEq1Chars s.data = none := splitEq1Chars_of_not_mem s.data h
  simp [pySplitEq1, h2]

theorem hasKey_iff (d : List (String × PyVal)) (n : String) :
    hasKey d n = true ↔ n ∈ d.map Prod.fst := by
  simp [hasKey, List.any_eq_true, List.mem_map]

theorem userArgsLoop_ok (args : List String) :
    ∀ acc : List (String × PyVal),
      (∀ a ∈ args, '=' ∈ a.toList) →
      (acc.map Prod.fst ++ args.map beforeEq).Nodup →
      userArgsLoop "P" args acc =
        .ok (acc ++ args.map (fun a => (beforeEq a, PyVal.str (afterEq a)))) := by
  induction args with
  | nil => intro acc _ _; simp [userArgsLoop]
  | cons a rest ih =>
    intro acc hEq hNd
    have ha : '=' ∈ a.toList := hEq a (List.mem_cons_self a rest)
    have hs := pySplitEq1_of_mem a ha
    have hdis := (List.nodup_append.mp hNd).2.2
    have hmem : beforeEq a ∉ acc.map Prod.fst := fun hm =>
      (hdis hm) (List.mem_cons_self _ _)
    have hk : hasKey acc (beforeEq a) = false := by
      rw [Bool.eq_false_iff]
      intro ht
      exact hmem ((hasKey_iff acc _).mp ht)
    have hrec := ih (acc ++ [(beforeEq a, PyVal.str (afterEq a))])
      (fun x hx => hEq x (List.mem_cons_of_mem a hx))
      (by
        rw [List.map_append]
        simpa [List.append_assoc] using hNd)
    simp [userArgsLoop, hs, hk, hrec]

theorem userArgsLoop_ok_inv (args : List String) :
    ∀ acc d, (acc.map Prod.fst).Nodup →
      userArgsLoop "P" args acc = .ok d →
      (∀ a ∈ args, '=' ∈ a.toList) ∧
        (acc.map Prod.fst ++ args.map beforeEq).Nodup := by
  induction args with
  | nil => intro acc d hacc _; simpa using hacc
  | cons a rest ih =>
    intro acc d hacc h
    by_cases ha : '=' ∈ a.toList
    · have hs := pySplitEq1_of_mem a ha
      by_cases hk : hasKey acc (beforeEq a) = true
      · exfalso
        simp [userArgsLoop, hs, hk] at h
      · have hk' : hasKey acc (beforeEq a) = false := by
          simpa using hk
        have h' : userArgsLoop "P" rest
            (acc ++ [(beforeEq a, PyVal.str (afterEq a))]) = .ok d := by
          simpa [userArgsLoop, hs, hk'] using h
        have hmem : beforeEq a ∉ acc.map Prod.fst := fun hm =>
          hk ((hasKey_iff acc _).mpr hm)
        have hacc' :
            (((acc ++ [(beforeEq a, PyVal.str (afterEq a))]).map
              Prod.fst)).Nodup := by
          rw [List.map_append]
          exact List.Nodup.append hacc (by simp)
            (by simpa [List.disjoint_left] using hmem)
        obtain ⟨h1, h2⟩ := ih _ d hacc' h'
        refine ⟨?_, ?_⟩
        · intro x hx
          rcases List.mem_cons.mp hx with h3 | h3
          · exact h3 ▸ ha
          · exact h1 x h3
        · rw [List.map_append] at h2
          simpa [List.append_assoc] using h2
    · exfalso
      have hs := pySplitEq1_of_not_mem a ha
      simp [userArgsLoop, hs] at h

/-- C1: for every list of argument strings in which each string contains
at least one `=` and no name occurs twice, `_user_args_to_dict` with the
default argument type `P` returns a mapping that sends, for each
argument, the substring before the first `=` to the substring after the
first `=`, with exactly one entry per argument, in order. -/
theorem C1_user_args_to_dict (args : List String)
    (hEq : ∀ a ∈ args, '=' ∈ a.toList)
    (hNd : (args.map beforeEq).Nodup) :
    user_args_to_dict args "P" =
      .ok (args.map (fun a => (beforeEq a, PyVal.str (afterEq a)))) := by
  have h := userArgsLoop_ok args [] hEq (by simpa using hNd)
  simpa [user_args_to_dict] using h

theorem C1_user_args_to_dict_witness :
    user_args_to_dict ["a=b=c", "x=1"] "P" =
      .ok (["a=b=c", "x=1"].map
        (fun a => (beforeEq a, PyVal.str (afterEq a)))) :=
  C1_user_args_to_dict ["a=b=c", "x=1"] (by decide) (by decide)

/-- C2: `_user_args_to_dict` with argument type `P` terminates the
process with a message on standard error (modelled by `Except.error`)
if and only if some argument contains no `=` or some name, the substring
before the first `=`, is repeated across the list; otherwise it returns
normally. -/
theorem C2_exit_iff (args : List String) :
    (∃ msg, user_args_to_dict args "P" = .error msg) ↔
      ((∃ a ∈ args, '=' ∉ a.toList) ∨ ¬ (args.map beforeEq).Nodup) := by
  constructor
  · rintro ⟨msg, hmsg⟩
    by_contra hc
    push_neg at hc
    obtain ⟨h1, h2⟩ := hc
    have h := userArgsLoop_ok args [] h1 (by simpa using h2)
    rw [user_args_to_dict, h] at hmsg
    cases hmsg
  · intro h
    cases hres : user_args_to_dict args "P" with
    | error m => exact ⟨m, rfl⟩
    | ok d =>
      exfalso
      have hinv := userArgsLoop_ok_inv args [] d (by simp)
        (by simpa [user_args_to_dict] using hres)
      rcases h with h | h
      · obtain ⟨a, hain, hna⟩ := h
        exact hna (hinv.1 a hain)
      · exact h (by simpa using hinv.2)

theorem C2_exit_iff_witness :
    ∃ msg, user_args_to_dict ["x"] "P" = .error msg :=
  (C2_exit_iff ["x"]).mpr (Or.inl ⟨"x", by decide, by decide⟩)

/-! ## Lemmas about Python dict merge and the logging decorator -/

theorem dictGet_isSome (d : List (String × PyVal)) (k : String) :
    (dictGet d k).isSome = hasKey d k := by
  induction d with
  | nil => simp [dictGet, hasKey]
  | cons p d ih =>
    by_cases hp : p.1 = k <;> simp [dictGet, hasKey, hp, ih]

theorem dictGet_map_override (d1 d2 : List (String × PyVal)) (k : String) :
    dictGet (d1.map (fun p => (p.1, (dictGet d2 p.1).getD p.2))) k =
      (dictGet d1 k).map (fun v => (dictGet d2 k).getD v) := by
  induction d1 with
  | nil => simp [dictGet]
  | cons p d1 ih =>
    by_cases hp : p.1 = k
    · simp [dictGet, hp]
    · simp [dictGet, hp, ih]

theorem dictGet_filter_out (d1 d2 : List (String × PyVal)) (k : String)
    (hk : hasKey d1 k = false) :
    dictGet (d2.filter (fun p => !hasKey d1 p.1)) k = dictGet d2 k := by
  induction d2 with
  | nil => simp
  | cons q d2 ih =>
    by_cases hq : q.1 = k
    · have hkeep : (!hasKey d1 q.1) = true := by simp [hq, hk]
      simp [List.filter_cons, hkeep, dictGet, hq, hk]
    · by_cases hf : (!hasKey d1 q.1) = true
      · simp [List.filter_cons, hf, dictGet, hq, ih]
      · simp [List.filter_cons, hf, dictGet, hq, ih]

theorem dictGet_append (l1 l2 : List (String × PyVal)) (k : String) :
    dictGet (l1 ++ l2) k =
      match dictGet l1 k with
      | some v => some v
      | none => dictGet l2 k := by
  induction l1 with
  | nil => simp [dictGet]
  | cons p l1 ih =>
    by_cases hp : p.1 = k
    · simp [dictGet, hp]
    · simp [dictGet, hp, ih]

theorem dictGet_pyDictUnion (d1 d2 : List (String × PyVal)) (k : String) :
    dictGet (pyDictUnion d1 d2) k =
      match dictGet d2 k with
      | some v => some v
      | none => dictGet d1 k := by
  rw [pyDictUnion, dictGet_append, dictGet_map_override]
  cases h1 : dictGet d1 k with
  | some v =>
    cases h2 : dictGet d2 k <;> simp [h1, h2]
  | none =>
    have hk : hasKey d1 k = false := by
      rw [← dictGet_isSome, h1]
      rfl
    rw [dictGet_filter_out d1 d2 k hk]
    cases h2 : dictGet d2 k <;> simp [h1, h2]

/-- C8: for every function (modelled by its signature defaults and its
behaviour on keyword arguments) and every call of the wrapper produced by
`log_input_params` with keyword arguments, the wrapper logs exactly the
mapping obtained by taking the default values of the signature parameters
and overriding them with the supplied keyword arguments (same lookups and
same domain), and returns exactly the value of the function applied to
those keyword arguments. -/
theorem C8_log_input_params (sigParams : List (String × PyVal))
    (f : List (String × PyVal) → PyVal) (kwargs : List (String × PyVal)) :
    (log_input_params sigParams f kwargs).2 = f kwargs ∧
    (∀ k, dictGet (log_input_params sigParams f kwargs).1 k =
      match dictGet kwargs k with
      | some v => some v
      | none => dictGet sigParams k) ∧
    (∀ k, hasKey (log_input_params sigParams f kwargs).1 k =
      (hasKey sigParams k || hasKey kwargs k)) := by
  refine ⟨rfl, ?_, ?_⟩
  · intro k
    exact dictGet_pyDictUnion sigParams kwargs k
  · intro k
    rw [← dictGet_isSome, ← dictGet_isSome, ← dictGet_isSome]
    show (dictGet (pyDictUnion sigParams kwargs) k).isSome = _
    rw [dictGet_pyDictUnion]
    cases h2 : dictGet kwargs k <;> cases h1 : dictGet sigParams k <;> simp

/-! ## Lemmas about the project copy -/

mutual
theorem copyOne_none : ∀ (path : String) (t : FTree),
    copyOne none path t = t
  | _, .file _ => rfl
  | path, .dir n cs => by
    rw [copyOne, ignNames, copyKept_none]

theorem copyKept_none : ∀ (path : String) (es : List FTree),
    copyKept none path [] es = es
  | _, [] => rfl
  | path, e :: es => by
    rw [copyKept]
    simp only [List.contains, List.elem]
    rw [copyOne_none, copyKept_none]
    simp
end

mutual
theorem copyOne_clean (g : String → Bool) :
    ∀ (path : String) (t : FTree),
    g (pathJoin path t.name) = false → t.name ≠ ".git" →
    ∀ pr ∈ entryWithPaths path (copyOne (some (ignoreFn g)) path t),
      g pr.1 = false ∧ pr.2 ≠ ".git"
  | path, .file n => by
    intro hg hn pr hpr
    simp only [copyOne, entryWithPaths, List.mem_singleton] at hpr
    subst hpr
    exact ⟨hg, hn⟩
  | path, .dir n cs => by
    intro hg hn pr hpr
    rw [copyOne] at hpr
    rw [entryWithPaths] at hpr
    rcases List.mem_cons.mp hpr with h | h
    · subst h
      exact ⟨hg, hn⟩
    · refine copyKept_clean g (pathJoin path n) _ cs ?_ pr h
      intro e he hc
      by_contra hcon
      have hmemname : e.name ∈ cs.map FTree.name :=
        List.mem_map_of_mem FTree.name he
      have hpred :
          (g (pathJoin (pathJoin path n) e.name) || (e.name == ".git")) =
            true := by
        rcases not_and_or.mp hcon with h1 | h1
        · have : g (pathJoin (pathJoin path n) e.name) = true := by
            cases hb : g (pathJoin (pathJoin path n) e.name)
            · exact absurd hb h1
            · rfl
          simp [this]
        · have : e.name = ".git" := not_not.mp h1
          simp [this]
      have hmem : e.name ∈ ignNames (some (ignoreFn g)) (pathJoin path n)
          (cs.map FTree.name) := by
        rw [ignNames, ignoreFn]
        exact List.mem_filter.mpr ⟨hmemname, hpred⟩
      rw [← List.elem_iff] at hmem
      rw [List.contains] at hc
      rw [hc] at hmem
      cases hmem

theorem copyKept_clean (g : String → Bool) :
    ∀ (path : String) (ignored : List String) (es : List FTree),
    (∀ e ∈ es, ignored.contains e.name = false →
      g (pathJoin path e.name) = false ∧ e.name ≠ ".git") →
    ∀ pr ∈ entriesWithPaths path
        (copyKept (some (ignoreFn g)) path ignored es),
      g pr.1 = false ∧ pr.2 ≠ ".git"
  | path, ignored, [] => by
    intro _ pr hpr
    rw [copyKept, entriesWithPaths] at hpr
    cases hpr
  | path, ignored, e :: es => by
    intro H pr hpr
    rw [copyKept] at hpr
    by_cases hc : ignored.contains e.name = true
    · rw [if_pos hc] at hpr
      exact copyKept_clean g path ignored es
        (fun x hx => H x (List.mem_cons_of_mem e hx)) pr hpr
    · have hc' : ignored.contains e.name = false := by
        cases hb : ignored.contains e.name
        · rfl
        · exact absurd hb hc
      rw [if_neg hc] at hpr
      rw [entriesWithPaths] at hpr
      rcases List.mem_append.mp hpr with h | h
      · obtain ⟨hg, hn⟩ := H e (List.mem_cons_self e es) hc'
        exact copyOne_clean g path e hg hn pr h
      · exact copyKept_clean g path ignored es
          (fun x hx => H x (List.mem_cons_of_mem e hx)) pr h
end

theorem ignoreFn_kept (g : String → Bool) (path : String)
    (names : List String) (n : String) (hmem : n ∈ names)
    (hc : (ignoreFn g path names).contains n = false) :
    g (pathJoin path n) = false ∧ n ≠ ".git" := by
  by_contra hcon
  have hpred : (g (pathJoin path n) || (n == ".git")) = true := by
    rcases not_and_or.mp hcon with h1 | h1
    · have : g (pathJoin path n) = true := by
        cases hb : g (pathJoin path n)
        · exact absurd hb h1
        · rfl
      simp [this]
    · have : n = ".git" := not_not.mp h1
      simp [this]
  have hm2 : n ∈ ignoreFn g path names := by
    rw [ignoreFn]
    exact List.mem_filter.mpr ⟨hmem, hpred⟩
  rw [← List.elem_iff] at hm2
  rw [List.contains] at hc
  rw [hc] at hm2
  cases hm2

/-- C9: when copying the project source, entries are filtered only if a
file named `.gitignore` exists at the source root: in that case every
entry of the copy is unmatched by the gitignore rules and is not named
`.git` (matched entries and `.git` entries are excluded at every level);
when no `.gitignore` exists, no filtering at all is applied and the copy
equals the source, so a `.git` directory is copied. -/
theorem C9_copy_filtering (g : String → Bool) (uri : String)
    (entries : List FTree) (pp op : String) :
    ((entries.map FTree.name).contains ".gitignore" = false →
      (copy_from_uri g uri entries pp op).2.1 = entries) ∧
    ((entries.map FTree.name).contains ".gitignore" = true →
      ∀ pr ∈ entriesWithPaths uri (copy_from_uri g uri entries pp op).2.1,
        g pr.1 = false ∧ pr.2 ≠ ".git") := by
  constructor
  · intro h
    rw [copy_from_uri]
    simp only [h, Bool.false_eq_true, if_false]
    rw [copytree, ignNames, copyKept_none]
  · intro h pr hpr
    rw [copy_from_uri] at hpr
    simp only [h, if_true] at hpr
    rw [copytree] at hpr
    refine copyKept_clean g uri _ entries ?_ pr hpr
    intro e he hc
    refine ignoreFn_kept g uri (entries.map FTree.name) e.name
      (List.mem_map_of_mem FTree.name he) ?_
    rw [ignNames] at hc
    exact hc

theorem C9_copy_filtering_witness :
    (copy_from_uri (fun _ => false) "u"
      [FTree.file "x", FTree.dir ".git" []] "p" "o").2.1 =
      [FTree.file "x", FTree.dir ".git" []] :=
  (C9_copy_filtering (fun _ => false) "u"
    [FTree.file "x", FTree.dir ".git" []] "p" "o").1 (by decide)

/-! ## Lemmas about the entry-point rewrite -/

theorem setCommand_cons (p : String × EntryPoint)
    (eps : List (String × EntryPoint)) (n c : String) :
    setCommand (p :: eps) n c =
      (if p.1 == n then (p.1, { p.2 with command := some c }) else p) ::
        setCommand eps n c := by
  rw [setCommand, setCommand, List.map_cons]

theorem lookupEp_setCommand_self (eps : List (String × EntryPoint))
    (n c : String) (e : EntryPoint) (h : lookupEp eps n = some e) :
    lookupEp (setCommand eps n c) n = some { e with command := some c } := by
  induction eps with
  | nil => cases h
  | cons p eps ih =>
    rw [setCommand_cons]
    by_cases hp : p.1 = n
    · rw [lookupEp, if_pos hp] at h
      cases h
      simp [lookupEp, hp]
    · rw [lookupEp, if_neg hp] at h
      simp [lookupEp, hp, ih h]

theorem lookupEp_setCommand_other (eps : List (String × EntryPoint))
    (n c m : String) (hm : m ≠ n) :
    lookupEp (setCommand eps n c) m = lookupEp eps m := by
  induction eps with
  | nil => simp [setCommand]
  | cons p eps ih =>
    rw [setCommand_cons]
    by_cases hp : p.1 = n
    · have hpm : ¬ p.1 = m := fun hh => hm (hh.symm.trans hp)
      have hnm : ¬ n = m := fun hh => hm hh.symm
      simp [lookupEp, hp, hpm, hnm, ih]
    · by_cases hpm : p.1 = m
      · simp [lookupEp, hp, hpm, hm]
      · simp [lookupEp, hp, hpm, hm, ih]

/-- C10: whenever the manifest has the keys the rewrite reads,
`_setup_entrypoint_output` replaces the named entry point's command with
`bash wrapper.sh`, writes `wrapper.sh` wrapping the original command so
that its stdout and stderr are teed into files under `/output`, appends
`<output-path>:/output` to `docker_env.volumes` while preserving the
volumes already listed, keeps every other entry point unchanged, and
writes the mutated manifest back. -/
theorem C10_entrypoint_rewrite (pp ep op : String) (manifest : MLProject)
    (de : DockerEnv) (eps : List (String × EntryPoint)) (e : EntryPoint)
    (cmd : String)
    (hde : manifest.docker_env = some de)
    (heps : manifest.entry_points = some eps)
    (hep : lookupEp eps ep = some e)
    (hcmd : e.command = some cmd) :
    ∃ m2 : MLProject,
      setup_entrypoint_output pp ep op manifest =
        ([.readKey "docker_env.volumes",
          .readKey ("entry_points." ++ ep ++ ".command"),
          .writeFile (pp ++ "/wrapper.sh")
            (cmd ++
              " $@ 1> >(tee /output/stdout.txt) 2> >(tee /output/stderr.txt >&2)"),
          .writeManifest m2],
         .ok (m2, op ++ "/stdout.txt", op ++ "/stderr.txt")) ∧
      m2.docker_env = some
        { de with
          volumes := some (de.volumes.getD [] ++ [op ++ ":/output"]) } ∧
      m2.entry_points = some (setCommand eps ep "bash wrapper.sh") ∧
      lookupEp (setCommand eps ep "bash wrapper.sh") ep =
        some { e with command := some "bash wrapper.sh" } ∧
      (∀ m, m ≠ ep →
        lookupEp (setCommand eps ep "bash wrapper.sh") m = lookupEp eps m) := by
  refine ⟨{ manifest with
      docker_env := some
        { de with
          volumes := some (de.volumes.getD [] ++ [op ++ ":/output"]) },
      entry_points := some (setCommand eps ep "bash wrapper.sh") },
    ?_, rfl, rfl, lookupEp_setCommand_self eps ep "bash wrapper.sh" e hep,
    fun m hm => lookupEp_setCommand_other eps ep "bash wrapper.sh" m hm⟩
  simp [setup_entrypoint_output, hde, heps, hep, hcmd, wrapperText]

theorem C10_entrypoint_rewrite_witness :
    ∃ m2 : MLProject,
      setup_entrypoint_output "/tmp/p" "main" "/tmp/o" demoManifest =
        ([.readKey "docker_env.volumes",
          .readKey ("entry_points." ++ "main" ++ ".command"),
          .writeFile ("/tmp/p" ++ "/wrapper.sh")
            ("python train.py" ++
              " $@ 1> >(tee /output/stdout.txt) 2> >(tee /output/stderr.txt >&2)"),
          .writeManifest m2],
         .ok (m2, "/tmp/o" ++ "/stdout.txt", "/tmp/o" ++ "/stderr.txt")) ∧
      m2.docker_env = some
        { image := some "img", dockerfileKey := none,
          volumes := some ((Option.getD none []) ++ ["/tmp/o" ++ ":/output"]) } ∧
      m2.entry_points = some (setCommand
        [("main", { command := some "python train.py" })] "main"
        "bash wrapper.sh") ∧
      lookupEp (setCommand [("main", { command := some "python train.py" })]
          "main" "bash wrapper.sh") "main" =
        some { command := some "bash wrapper.sh" } ∧
      (∀ m, m ≠ "main" →
        lookupEp (setCommand [("main", { command := some "python train.py" })]
          "main" "bash wrapper.sh") m =
        lookupEp [("main", { command := some "python train.py" })] m) :=
  C10_entrypoint_rewrite "/tmp/p" "main" "/tmp/o" demoManifest
    { image := some "img", dockerfileKey := none, volumes := none }
    [("main", { command := some "python train.py" })]
    { command := some "python train.py" } "python train.py"
    rfl rfl (by decide) rfl

/-! ## Lemmas about the run pipeline -/

theorem stepE_error {α β : Type} (tr : List Event) (e : PyErr)
    (f : α → List Event × Except PyErr β) :
    stepE (tr, .error e) f = (tr, .error e) := rfl

theorem stepE_ok {α β : Type} (tr : List Event) (x : α)
    (f : α → List Event × Except PyErr β) :
    stepE (tr, .ok x) f = (tr ++ (f x).1, (f x).2) := rfl

theorem mem_stepE_left {α β : Type} (a : List Event × Except PyErr α)
    (f : α → List Event × Except PyErr β) (ev : Event) (h : ev ∈ a.1) :
    ev ∈ (stepE a f).1 := by
  obtain ⟨tr, res⟩ := a
  cases res
  · exact h
  · exact List.mem_append_left _ h

theorem stepE_forall {α β : Type} (P : Event → Prop)
    (a : List Event × Except PyErr α)
    (f : α → List Event × Except PyErr β)
    (ha : ∀ ev ∈ a.1, P ev) (hf : ∀ x, ∀ ev ∈ (f x).1, P ev) :
    ∀ ev ∈ (stepE a f).1, P ev := by
  obtain ⟨tr, res⟩ := a
  cases res with
  | error e => exact ha
  | ok x =>
    intro ev hev
    rcases List.mem_append.mp hev with h | h
    · exact ha ev h
    · exact hf x ev h

theorem dockerfileName_eq (de : DockerEnv) :
    (match de.dockerfileKey with | some d => d | none => "Dockerfile") =
      dockerfileName de := rfl

theorem setup_docker_image_forall (P : Event → Prop)
    (u : String) (bl : List (Option String)) (op : String)
    (m : MLProject) (files : List String)
    (h1 : P (.readKey "docker_env.image"))
    (h2 : P (.readKey "docker_env.Dockerfile"))
    (h3 : ∀ df tag, P (.dockerBuild df tag))
    (h4 : ∀ mm, P (.writeManifest mm))
    (h5 : ∀ pth c, P (.writeFile pth c)) :
    ∀ ev ∈ (setup_docker_image u bl op m files).1, P ev := by
  cases hde : m.docker_env with
  | none =>
    simp only [setup_docker_image, hde]
    simpa using h1
  | some de =>
    cases himg : de.image with
    | none =>
      simp only [setup_docker_image, hde, himg]
      simpa using h1
    | some tag =>
      simp only [setup_docker_image, hde, himg]
      cases hif : ((!tag.toList.contains ':') && files.contains (dockerfileName de))
      · rw [dockerfileName_eq] at *
        simp only [hif, Bool.false_eq_true, if_false]
        intro ev hev
        simp at hev
        rcases hev with rfl | rfl
        · exact h1
        · exact h2
      · rw [dockerfileName_eq] at *
        simp only [hif, if_true]
        intro ev hev
        simp at hev
        rcases hev with rfl | rfl | rfl | rfl | rfl
        · exact h1
        · exact h2
        · exact h3 _ _
        · exact h4 _
        · exact h5 _ _

theorem setup_entrypoint_output_forall (P : Event → Prop)
    (pp ep op : String) (m : MLProject)
    (h1 : P (.readKey "docker_env.volumes"))
    (h2 : P (.readKey ("entry_points." ++ ep ++ ".command")))
    (h3 : ∀ pth c, P (.writeFile pth c))
    (h4 : ∀ mm, P (.writeManifest mm)) :
    ∀ ev ∈ (setup_entrypoint_output pp ep op m).1, P ev := by
  cases hde : m.docker_env with
  | none =>
    simp only [setup_entrypoint_output, hde]
    simpa using h1
  | some de =>
    cases heps : m.entry_points with
    | none =>
      simp only [setup_entrypoint_output, hde, heps]
      intro ev hev
      simp at hev
      rcases hev with rfl | rfl
      · exact h1
      · exact h2
    | some eps =>
      cases hep : lookupEp eps ep with
      | none =>
        simp only [setup_entrypoint_output, hde, heps, hep]
        intro ev hev
        simp at hev
        rcases hev with rfl | rfl
        · exact h1
        · exact h2
      | some e =>
        cases hcmd : e.command with
        | none =>
          simp only [setup_entrypoint_output, hde, heps, hep, hcmd]
          intro ev hev
          simp at hev
          rcases hev with rfl | rfl
          · exact h1
          · exact h2
        | some c =>
          simp only [setup_entrypoint_output, hde, heps, hep, hcmd]
          intro ev hev
          simp at hev
          rcases hev with rfl | rfl | rfl | rfl
          · exact h1
          · exact h2
          · exact h3 _ _
          · exact h4 _

theorem log_artifact_forall (P : Event → Prop) (p dest : Option String)
    (h : ∀ pth dst, P (.logArtifact pth dst)) :
    ∀ ev ∈ (log_artifact p dest).1, P ev := by
  cases p
  · intro ev hev
    simp [log_artifact] at hev
  · intro ev hev
    simp [log_artifact] at hev
    subst hev
    exact h _ _

theorem runBody_forall (P : Event → Prop) (inp : RunInputs)
    (d : List (String × PyVal))
    (hcopy : P (.copyTree inp.uri inp.projectDir))
    (harch : ∀ z, P (.makeArchive z))
    (hread : ∀ k, P (.readKey k))
    (hbuild : ∀ df tag, P (.dockerBuild df tag))
    (hwm : ∀ mm, P (.writeManifest mm))
    (hwf : ∀ pth c, P (.writeFile pth c))
    (hrun : ∀ u ep ps, P (.projectsRun u ep ps))
    (hsr : ∀ r, P (.startRun r))
    (hla : ∀ pth dst, P (.logArtifact pth dst)) :
    ∀ ev ∈ (runBody inp d).1, P ev := by
  rw [runBody]
  refine stepE_forall P _ _ ?_ ?_
  · intro ev hev
    simp [copy_from_uri] at hev
    rcases hev with rfl | rfl
    · exact hcopy
    · exact harch _
  · intro cr
    refine stepE_forall P _ _ ?_ ?_
    · exact setup_docker_image_forall P _ _ _ _ _ (hread _) (hread _)
        hbuild hwm hwf
    · intro dr
      refine stepE_forall P _ _ ?_ ?_
      · exact setup_entrypoint_output_forall P _ _ _ _ (hread _) (hread _)
          hwf hwm
      · intro er
        refine stepE_forall P _ _ ?_ ?_
        · intro ev hev
          simp at hev
          subst hev
          exact hrun _ _ _
        · intro u2
          refine stepE_forall P _ _ ?_ ?_
          · intro ev hev
            simp at hev
            subst hev
            exact hsr _
          · intro u3
            refine stepE_forall P _ _ ?_ ?_
            · exact log_artifact_forall P _ _ hla
            · intro u4
              refine stepE_forall P _ _ ?_ ?_
              · exact log_artifact_forall P _ _ hla
              · intro u5
                refine stepE_forall P _ _ ?_ ?_
                · exact log_artifact_forall P _ _ hla
                · intro u6
                  exact log_artifact_forall P _ _ hla

/-- C7: the two temporary directories are created at the start of the run
command's body and removed when it exits, on the success path and on every
failure path alike (a parse failure exits before any directory is
created); no other step creates or removes a temporary directory, so no
temporary state persists across invocations. -/
theorem C7_temp_dirs (inp : RunInputs) :
    (∀ p, Event.mkTempDir p ∈ (runCmd inp).1 ↔
      Event.rmTempDir p ∈ (runCmd inp).1) ∧
    (∀ d, user_args_to_dict inp.param_list "P" = .ok d →
      ∃ mid, (runCmd inp).1 =
        [Event.mkTempDir inp.projectDir, Event.mkTempDir inp.outputDir] ++
          mid ++
          [Event.rmTempDir inp.outputDir, Event.rmTempDir inp.projectDir] ∧
        ∀ ev ∈ mid, isTempEvent ev = false) := by
  have hbody : ∀ d, ∀ ev ∈ (runBody inp d).1, isTempEvent ev = false :=
    fun d =>
      runBody_forall _ inp d rfl (fun _ => rfl) (fun _ => rfl)
        (fun _ _ => rfl) (fun _ => rfl) (fun _ _ => rfl)
        (fun _ _ _ => rfl) (fun _ => rfl) (fun _ _ => rfl)
  cases hu : user_args_to_dict inp.param_list "P" with
  | error msg =>
    constructor
    · intro p
      simp [runCmd, hu]
    · intro d hd
      cases hd
  | ok d =>
    have htr : (runCmd inp).1 =
        [Event.mkTempDir inp.projectDir, Event.mkTempDir inp.outputDir] ++
          (runBody inp d).1 ++
          [Event.rmTempDir inp.outputDir, Event.rmTempDir inp.projectDir] := by
      simp [runCmd, hu]
    constructor
    · intro p
      rw [htr]
      constructor
      · intro hm
        rcases List.mem_append.mp hm with hm1 | hm2
        · rcases List.mem_append.mp hm1 with hm3 | hm4
          · simp only [List.mem_cons, List.mem_singleton] at hm3
            rcases hm3 with h | h | h
            · cases h
              simp
            · cases h
              simp
            · cases h
          · exact absurd (hbody d _ hm4) (by simp [isTempEvent])
        · simp at hm2
      · intro hm
        rcases List.mem_append.mp hm with hm1 | hm2
        · rcases List.mem_append.mp hm1 with hm3 | hm4
          · simp at hm3
          · exact absurd (hbody d _ hm4) (by simp [isTempEvent])
        · simp only [List.mem_cons, List.mem_singleton] at hm2
          rcases hm2 with h | h | h
          · cases h
            simp
          · cases h
            simp
          · cases h
    · intro d2 hd2
      injection hd2 with hh
      subst hh
      exact ⟨(runBody inp d).1, htr, hbody d⟩

theorem C7_temp_dirs_witness :
    ∃ mid, (runCmd demoInp).1 =
      [Event.mkTempDir "/tmp/p", Event.mkTempDir "/tmp/o"] ++ mid ++
        [Event.rmTempDir "/tmp/o", Event.rmTempDir "/tmp/p"] ∧
      ∀ ev ∈ mid, isTempEvent ev = false :=
  (C7_temp_dirs demoInp).2
    [("alpha", PyVal.str "0.1"), ("b", PyVal.str "2")] rfl

theorem mem_stepE_elim {α β : Type} (a : List Event × Except PyErr α)
    (f : α → List Event × Except PyErr β) (ev : Event)
    (h : ev ∈ (stepE a f).1) :
    ev ∈ a.1 ∨ ∃ x, a.2 = .ok x ∧ ev ∈ (f x).1 := by
  obtain ⟨tr, res⟩ := a
  cases res with
  | error e => exact Or.inl h
  | ok x =>
    rcases List.mem_append.mp h with h1 | h1
    · exact Or.inl h1
    · exact Or.inr ⟨x, rfl, h1⟩

theorem setup_docker_image_build_name (u : String)
    (bl : List (Option String)) (op : String) (m : MLProject)
    (files : List String) (de : DockerEnv) (hde : m.docker_env = some de)
    (df tag : String)
    (hmem : Event.dockerBuild df tag ∈ (setup_docker_image u bl op m files).1) :
    df = dockerfileName de := by
  cases himg : de.image with
  | none => simp [setup_docker_image, hde, himg] at hmem
  | some t =>
    simp only [setup_docker_image, hde, himg] at hmem
    rw [dockerfileName_eq] at hmem
    cases hif : ((!t.toList.contains ':') && files.contains (dockerfileName de)) with
    | false =>
      rw [hif] at hmem
      simp at hmem
    | true =>
      rw [hif] at hmem
      simp at hmem
      exact hmem.1

theorem setup_docker_image_ok (u : String) (bl : List (Option String))
    (op : String) (m : MLProject) (files : List String) (de : DockerEnv)
    (tag : String) (hde : m.docker_env = some de)
    (himg : de.image = some tag) :
    ∃ tr m2 dl de2,
      setup_docker_image u bl op m files = (tr, .ok (m2, dl)) ∧
      m2.entry_points = m.entry_points ∧
      m2.docker_env = some de2 ∧
      de2.dockerfileKey = de.dockerfileKey ∧
      de2.volumes = de.volumes := by
  simp only [setup_docker_image, hde, himg]
  rw [dockerfileName_eq]
  cases hif : ((!tag.toList.contains ':') && files.contains (dockerfileName de)) with
  | false =>
    simp only [Bool.false_eq_true, if_false]
    exact ⟨_, m, none, de, rfl, rfl, hde, rfl, rfl⟩
  | true =>
    simp only [if_true]
    exact ⟨_, _, _, { de with image := some (tag ++ ":" ++ u) },
      rfl, rfl, rfl, rfl, rfl⟩

theorem stepE_snd_okpair {α β : Type} (tr : List Event) (x : α)
    (f : α → List Event × Except PyErr β) :
    (stepE (tr, .ok x) f).2 = (f x).2 := rfl

theorem stepE_snd_errpair {α β : Type} (tr : List Event) (e : PyErr)
    (f : α → List Event × Except PyErr β) :
    (stepE (tr, .error e) f).2 = .error e := rfl

/-- C6: when the manifest lacks a key the run command requires (the
`docker_env` mapping, its `image` key, the `entry_points` mapping, the
named entry point, or its `command` key), the command fails with exactly
the corresponding uncaught `KeyError`, with no recovery or substitute
default; only a missing `docker_env.Dockerfile` key is handled locally,
by defaulting the build file to `Dockerfile`. -/
theorem C6_missing_keys (inp : RunInputs) (d : List (String × PyVal))
    (hu : user_args_to_dict inp.param_list "P" = .ok d) :
    (∀ k, firstMissingKey inp.manifest inp.entry_point = some k →
      (runCmd inp).2 = .error (.keyError k)) ∧
    (∀ de files df tag, inp.manifest.docker_env = some de →
      de.dockerfileKey = none →
      Event.dockerBuild df tag ∈
        (setup_docker_image inp.uuid inp.buildLogs inp.outputDir
          inp.manifest files).1 →
      df = "Dockerfile") := by
  constructor
  · intro k hk
    cases hde : inp.manifest.docker_env with
    | none =>
      simp only [firstMissingKey, hde] at hk
      injection hk with hk2
      subst hk2
      simp only [runCmd, hu]
      rw [runBody]
      simp only [stepE_snd_okpair]
      simp only [setup_docker_image, hde]
      rfl
    | some de =>
      cases himg : de.image with
      | none =>
        simp only [firstMissingKey, hde, himg] at hk
        injection hk with hk2
        subst hk2
        simp only [runCmd, hu]
        rw [runBody]
        simp only [stepE_snd_okpair]
        simp only [setup_docker_image, hde, himg]
        rfl
      | some tag =>
        obtain ⟨tr2, m2, dl, de2, hdock, hepEq, hde2, _, _⟩ :=
          setup_docker_image_ok inp.uuid inp.buildLogs inp.outputDir
            inp.manifest
            (treePaths ""
              (copy_from_uri inp.gitMatch inp.uri inp.srcEntries
                inp.projectDir inp.outputDir).2.1)
            de tag hde himg
        cases heps : inp.manifest.entry_points with
        | none =>
          simp only [firstMissingKey, hde, himg, heps] at hk
          injection hk with hk2
          subst hk2
          simp only [runCmd, hu]
          rw [runBody]
          simp only [stepE_snd_okpair]
          rw [hdock]
          simp only [stepE_snd_okpair]
          simp only [setup_entrypoint_output, hde2]
          rw [hepEq, heps]
          rfl
        | some eps =>
          cases hep : lookupEp eps inp.entry_point with
          | none =>
            simp only [firstMissingKey, hde, himg, heps, hep] at hk
            injection hk with hk2
            subst hk2
            simp only [runCmd, hu]
            rw [runBody]
            simp only [stepE_snd_okpair]
            rw [hdock]
            simp only [stepE_snd_okpair]
            simp only [setup_entrypoint_output, hde2]
            rw [hepEq, heps]
            simp only [hep]
            rfl
          | some e =>
            cases hcmd : e.command with
            | none =>
              simp only [firstMissingKey, hde, himg, heps, hep, hcmd] at hk
              injection hk with hk2
              subst hk2
              simp only [runCmd, hu]
              rw [runBody]
              simp only [stepE_snd_okpair]
              rw [hdock]
              simp only [stepE_snd_okpair]
              simp only [setup_entrypoint_output, hde2]
              rw [hepEq, heps]
              simp only [hep, hcmd]
              rfl
            | some c =>
              simp only [firstMissingKey, hde, himg, heps, hep, hcmd] at hk
              cases hk
  · intro de files df tag hde hdfk hmem
    have h := setup_docker_image_build_name inp.uuid inp.buildLogs
      inp.outputDir inp.manifest files de hde df tag hmem
    simpa [dockerfileName, hdfk] using h

theorem C6_missing_keys_witness :
    (runCmd { demoInp with
      manifest := { demoManifest with entry_points := none } }).2 =
      .error (.keyError "entry_points") :=
  (C6_missing_keys
    { demoInp with manifest := { demoManifest with entry_points := none } }
    [("alpha", PyVal.str "0.1"), ("b", PyVal.str "2")] rfl).1
    "entry_points" rfl

theorem C3_counterexample :
    ((treePaths ""
      (copy_from_uri noBuildInp.gitMatch noBuildInp.uri noBuildInp.srcEntries
        noBuildInp.projectDir noBuildInp.outputDir).2.1).contains
        "Dockerfile" = true ∧
      noBuildInp.manifest.docker_env = some
        { image := some "img:1", dockerfileKey := none, volumes := none }) ∧
    ((runCmd noBuildInp).1.all (fun ev => !isDockerBuild ev)) = true := by
  decide

/-- C3 (amended): for every run on a project whose working copy contains
the discoverable build file (the `docker_env.Dockerfile` key's value, or
`Dockerfile` when that key is absent) and whose `docker_env.image` tag
contains no `:`, the run command builds a container image from that build
file, tagging it with the image name and a fresh uuid, and captures the
build's `stream` log entries into a file in the output directory. -/
theorem C3_docker_build (inp : RunInputs) (d : List (String × PyVal))
    (de : DockerEnv) (tag : String)
    (hu : user_args_to_dict inp.param_list "P" = .ok d)
    (hde : inp.manifest.docker_env = some de)
    (himg : de.image = some tag)
    (hcolon : ':' ∉ tag.toList)
    (hdf : dockerfileName de ∈ treePaths ""
        (copy_from_uri inp.gitMatch inp.uri inp.srcEntries inp.projectDir
          inp.outputDir).2.1) :
    Event.dockerBuild (dockerfileName de) (tag ++ ":" ++ inp.uuid) ∈
      (runCmd inp).1 ∧
    Event.writeFile (inp.outputDir ++ "/docker.stdout.txt")
      (streamConcat inp.buildLogs) ∈ (runCmd inp).1 := by
  have hmem1 : Event.dockerBuild (dockerfileName de)
      (tag ++ ":" ++ inp.uuid) ∈
      (setup_docker_image inp.uuid inp.buildLogs inp.outputDir inp.manifest
        (treePaths "" (copy_from_uri inp.gitMatch inp.uri inp.srcEntries
          inp.projectDir inp.outputDir).2.1)).1 := by
    have hcolon2 : ':' ∉ tag.data := hcolon
    simp only [setup_docker_image, hde, himg]
    rw [dockerfileName_eq]
    simp [hcolon2, hdf]
  have hmem2 : Event.writeFile (inp.outputDir ++ "/docker.stdout.txt")
      (streamConcat inp.buildLogs) ∈
      (setup_docker_image inp.uuid inp.buildLogs inp.outputDir inp.manifest
        (treePaths "" (copy_from_uri inp.gitMatch inp.uri inp.srcEntries
          inp.projectDir inp.outputDir).2.1)).1 := by
    have hcolon2 : ':' ∉ tag.data := hcolon
    simp only [setup_docker_image, hde, himg]
    rw [dockerfileName_eq]
    simp [hcolon2, hdf]
  have hlift : ∀ ev,
      ev ∈ (setup_docker_image inp.uuid inp.buildLogs inp.outputDir
        inp.manifest (treePaths "" (copy_from_uri inp.gitMatch inp.uri
          inp.srcEntries inp.projectDir inp.outputDir).2.1)).1 →
      ev ∈ (runCmd inp).1 := by
    intro ev hev
    have hb : ev ∈ (runBody inp d).1 := by
      rw [runBody, stepE_ok]
      exact List.mem_append_right _ (mem_stepE_left _ _ ev hev)
    simp only [runCmd, hu]
    exact List.mem_append_left _ (List.mem_append_right _ hb)
  exact ⟨hlift _ hmem1, hlift _ hmem2⟩

theorem C3_docker_build_witness :
    Event.dockerBuild (dockerfileName
        { image := some "img", dockerfileKey := none, volumes := none })
      ("img" ++ ":" ++ "u1") ∈ (runCmd demoInp).1 ∧
    Event.writeFile ("/tmp/o" ++ "/docker.stdout.txt")
      (streamConcat demoInp.buildLogs) ∈ (runCmd demoInp).1 :=
  C3_docker_build demoInp [("alpha", PyVal.str "0.1"), ("b", PyVal.str "2")]
    { image := some "img", dockerfileKey := none, volumes := none } "img"
    rfl rfl rfl (by decide) (by decide)

theorem runCmd_trace_explicit (inp : RunInputs) (d : List (String × PyVal))
    (de : DockerEnv) (tag : String) (eps : List (String × EntryPoint))
    (e : EntryPoint) (cmd : String)
    (hu : user_args_to_dict inp.param_list "P" = .ok d)
    (hde : inp.manifest.docker_env = some de)
    (himg : de.image = some tag)
    (hcolon : ':' ∉ tag.data)
    (hdf : dockerfileName de ∈ treePaths ""
        (copy_from_uri inp.gitMatch inp.uri inp.srcEntries inp.projectDir
          inp.outputDir).2.1)
    (heps : inp.manifest.entry_points = some eps)
    (hep : lookupEp eps inp.entry_point = some e)
    (hcmd : e.command = some cmd) :
    runCmd inp =
      ([Event.mkTempDir inp.projectDir, Event.mkTempDir inp.outputDir,
        Event.copyTree inp.uri inp.projectDir,
        Event.makeArchive (inp.outputDir ++ "/src.zip"),
        Event.readKey "docker_env.image",
        Event.readKey "docker_env.Dockerfile",
        Event.dockerBuild (dockerfileName de) (tag ++ ":" ++ inp.uuid),
        Event.writeManifest
          { docker_env := some
              { image := some (tag ++ ":" ++ inp.uuid),
                dockerfileKey := de.dockerfileKey, volumes := de.volumes },
            entry_points := some eps },
        Event.writeFile (inp.outputDir ++ "/docker.stdout.txt")
          (streamConcat inp.buildLogs),
        Event.readKey "docker_env.volumes",
        Event.readKey ("entry_points." ++ inp.entry_point ++ ".command"),
        Event.writeFile (inp.projectDir ++ "/wrapper.sh") (wrapperText cmd),
        Event.writeManifest
          { docker_env := some
              { image := some (tag ++ ":" ++ inp.uuid),
                dockerfileKey := de.dockerfileKey,
                volumes := some
                  (de.volumes.getD [] ++ [inp.outputDir ++ ":/output"]) },
            entry_points := some
              (setCommand eps inp.entry_point "bash wrapper.sh") },
        Event.projectsRun inp.projectDir inp.entry_point d,
        Event.startRun inp.runId,
        Event.logArtifact (inp.outputDir ++ "/src.zip") none,
        Event.logArtifact (inp.outputDir ++ "/docker.stdout.txt")
          (some "logs"),
        Event.logArtifact (inp.outputDir ++ "/stdout.txt") (some "logs"),
        Event.logArtifact (inp.outputDir ++ "/stderr.txt") (some "logs"),
        Event.rmTempDir inp.outputDir, Event.rmTempDir inp.projectDir],
       .ok ()) := by
  have hdf2 := hdf
  simp [copy_from_uri] at hdf2
  simp only [runCmd, hu, runBody, stepE, copy_from_uri, setup_docker_image,
    hde, himg, dockerfileName_eq, setup_entrypoint_output, log_artifact,
    heps, hep, hcmd]
  simp [hcolon, hdf2, heps, hep, hcmd]

theorem runCmd_ok_inv (inp : RunInputs) (h : (runCmd inp).2 = .ok ()) :
    ∃ d de tag eps e cmd,
      user_args_to_dict inp.param_list "P" = .ok d ∧
      inp.manifest.docker_env = some de ∧
      de.image = some tag ∧
      ':' ∉ tag.data ∧
      dockerfileName de ∈ treePaths ""
        (copy_from_uri inp.gitMatch inp.uri inp.srcEntries inp.projectDir
          inp.outputDir).2.1 ∧
      inp.manifest.entry_points = some eps ∧
      lookupEp eps inp.entry_point = some e ∧
      e.command = some cmd := by
  cases hu : user_args_to_dict inp.param_list "P" with
  | error m =>
    exfalso
    simp [runCmd, hu] at h
  | ok d =>
    have h2 : (runBody inp d).2 = .ok () := by
      simpa [runCmd, hu] using h
    cases hde : inp.manifest.docker_env with
    | none =>
      exfalso
      rw [runBody] at h2
      simp only [stepE_snd_okpair] at h2
      simp only [setup_docker_image, hde] at h2
      simp only [stepE_snd_errpair] at h2
      cases h2
    | some de =>
      cases himg : de.image with
      | none =>
        exfalso
        rw [runBody] at h2
        simp only [stepE_snd_okpair] at h2
        simp only [setup_docker_image, hde, himg] at h2
        simp only [stepE_snd_errpair] at h2
        cases h2
      | some tag =>
        rw [runBody] at h2
        simp only [stepE_snd_okpair] at h2
        simp only [setup_docker_image, hde, himg] at h2
        rw [dockerfileName_eq] at h2
        cases hif : ((!tag.toList.contains ':') &&
            (treePaths "" (copy_from_uri inp.gitMatch inp.uri
              inp.srcEntries inp.projectDir inp.outputDir).2.1).contains
              (dockerfileName de)) with
        | false =>
          exfalso
          rw [hif] at h2
          cases heps : inp.manifest.entry_points with
          | none =>
            simp [setup_entrypoint_output, hde, heps, stepE,
              log_artifact] at h2
          | some eps =>
            cases hep : lookupEp eps inp.entry_point with
            | none =>
              simp [setup_entrypoint_output, hde, heps, hep, stepE,
                log_artifact] at h2
            | some e =>
              cases hcmd : e.command with
              | none =>
                simp [setup_entrypoint_output, hde, heps, hep, hcmd, stepE,
                  log_artifact] at h2
              | some cmd =>
                simp [setup_entrypoint_output, hde, heps, hep, hcmd, stepE,
                  log_artifact] at h2
        | true =>
          have hboth := hif
          simp only [Bool.and_eq_true, Bool.not_eq_true'] at hboth
          have hcl : ':' ∉ tag.data := by
            have h1b := hboth.1
            simpa using h1b
          have hdfm : dockerfileName de ∈ treePaths ""
              (copy_from_uri inp.gitMatch inp.uri inp.srcEntries
                inp.projectDir inp.outputDir).2.1 := by
            have h2b := hboth.2
            simpa using h2b
          rw [hif] at h2
          cases heps : inp.manifest.entry_points with
          | none =>
            exfalso
            simp [setup_entrypoint_output, hde, heps, stepE,
              log_artifact] at h2
          | some eps =>
            cases hep : lookupEp eps inp.entry_point with
            | none =>
              exfalso
              simp [setup_entrypoint_output, hde, heps, hep, stepE,
                log_artifact] at h2
            | some e =>
              cases hcmd : e.command with
              | none =>
                exfalso
                simp [setup_entrypoint_output, hde, heps, hep, hcmd, stepE,
                  log_artifact] at h2
              | some cmd =>
                exact ⟨d, de, tag, eps, e, cmd, rfl, rfl, himg, hcl, hdfm,
                  rfl, hep, hcmd⟩

/-- C5: every invocation of the run command that succeeds performs its
effects exactly once each and in this fixed order: temporary directories
created, project source copied and archived, container image built (a
successful run always builds, since a skipped build later fails on the
log-artifact step), entry-point output capture set up, the tracking
system's project runner invoked, the run record opened and the source
archive and the three log files attached, and the temporary directories
removed. -/
theorem C5_run_order (inp : RunInputs) (tr : List Event)
    (h : runCmd inp = (tr, .ok ())) :
    ∃ d de tag eps cmd,
      tr = [Event.mkTempDir inp.projectDir, Event.mkTempDir inp.outputDir,
        Event.copyTree inp.uri inp.projectDir,
        Event.makeArchive (inp.outputDir ++ "/src.zip"),
        Event.readKey "docker_env.image",
        Event.readKey "docker_env.Dockerfile",
        Event.dockerBuild (dockerfileName de) (tag ++ ":" ++ inp.uuid),
        Event.writeManifest
          { docker_env := some
              { image := some (tag ++ ":" ++ inp.uuid),
                dockerfileKey := de.dockerfileKey, volumes := de.volumes },
            entry_points := some eps },
        Event.writeFile (inp.outputDir ++ "/docker.stdout.txt")
          (streamConcat inp.buildLogs),
        Event.readKey "docker_env.volumes",
        Event.readKey ("entry_points." ++ inp.entry_point ++ ".command"),
        Event.writeFile (inp.projectDir ++ "/wrapper.sh") (wrapperText cmd),
        Event.writeManifest
          { docker_env := some
              { image := some (tag ++ ":" ++ inp.uuid),
                dockerfileKey := de.dockerfileKey,
                volumes := some
                  (de.volumes.getD [] ++ [inp.outputDir ++ ":/output"]) },
            entry_points := some
              (setCommand eps inp.entry_point "bash wrapper.sh") },
        Event.projectsRun inp.projectDir inp.entry_point d,
        Event.startRun inp.runId,
        Event.logArtifact (inp.outputDir ++ "/src.zip") none,
        Event.logArtifact (inp.outputDir ++ "/docker.stdout.txt")
          (some "logs"),
        Event.logArtifact (inp.outputDir ++ "/stdout.txt") (some "logs"),
        Event.logArtifact (inp.outputDir ++ "/stderr.txt") (some "logs"),
        Event.rmTempDir inp.outputDir, Event.rmTempDir inp.projectDir] := by
  have h2 : (runCmd inp).2 = .ok () := by rw [h]
  obtain ⟨d, de, tag, eps, e, cmd, hu, hde, himg, hcl, hdfm, heps, hep,
    hcmd⟩ := runCmd_ok_inv inp h2
  have hexp := runCmd_trace_explicit inp d de tag eps e cmd hu hde himg
    hcl hdfm heps hep hcmd
  have htr := congrArg Prod.fst (h.symm.trans hexp)
  exact ⟨d, de, tag, eps, cmd, htr⟩

theorem C5_run_order_witness :
    ∃ d de tag eps cmd,
      (runCmd demoInp).1 =
        [Event.mkTempDir demoInp.projectDir,
        Event.mkTempDir demoInp.outputDir,
        Event.copyTree demoInp.uri demoInp.projectDir,
        Event.makeArchive (demoInp.outputDir ++ "/src.zip"),
        Event.readKey "docker_env.image",
        Event.readKey "docker_env.Dockerfile",
        Event.dockerBuild (dockerfileName de) (tag ++ ":" ++ demoInp.uuid),
        Event.writeManifest
          { docker_env := some
              { image := some (tag ++ ":" ++ demoInp.uuid),
                dockerfileKey := de.dockerfileKey, volumes := de.volumes },
            entry_points := some eps },
        Event.writeFile (demoInp.outputDir ++ "/docker.stdout.txt")
          (streamConcat demoInp.buildLogs),
        Event.readKey "docker_env.volumes",
        Event.readKey ("entry_points." ++ demoInp.entry_point ++ ".command"),
        Event.writeFile (demoInp.projectDir ++ "/wrapper.sh")
          (wrapperText cmd),
        Event.writeManifest
          { docker_env := some
              { image := some (tag ++ ":" ++ demoInp.uuid),
                dockerfileKey := de.dockerfileKey,
                volumes := some
                  (de.volumes.getD [] ++ [demoInp.outputDir ++ ":/output"]) },
            entry_points := some
              (setCommand eps demoInp.entry_point "bash wrapper.sh") },
        Event.projectsRun demoInp.projectDir demoInp.entry_point d,
        Event.startRun demoInp.runId,
        Event.logArtifact (demoInp.outputDir ++ "/src.zip") none,
        Event.logArtifact (demoInp.outputDir ++ "/docker.stdout.txt")
          (some "logs"),
        Event.logArtifact (demoInp.outputDir ++ "/stdout.txt")
          (some "logs"),
        Event.logArtifact (demoInp.outputDir ++ "/stderr.txt")
          (some "logs"),
        Event.rmTempDir demoInp.outputDir,
        Event.rmTempDir demoInp.projectDir] :=
  C5_run_order demoInp (runCmd demoInp).1 rfl

theorem C4_counterexample :
    (runCmd demoInp).2 = .ok () ∧
    Event.readKey "docker_env.volumes" ∈ (runCmd demoInp).1 ∧
    "docker_env.volumes" ∉ specReadKeys demoInp.entry_point :=
  ⟨rfl, by decide, by decide⟩

/-- C4 (amended): a successful run command reads from the manifest exactly
the dotted keys `docker_env.image`, `docker_env.Dockerfile` (falling back
to the build file `Dockerfile` when the key is absent),
`docker_env.volumes` (defaulting to an empty list when absent), and
`entry_points.<entry-point>.command`, and writes a mutated copy of the
manifest back to the MLproject path before invoking the tracking system's
project runner. -/
theorem C4_manifest_io (inp : RunInputs) (tr : List Event)
    (h : runCmd inp = (tr, .ok ())) :
    (∀ k, Event.readKey k ∈ tr ↔
      k ∈ specReadKeys inp.entry_point ++ ["docker_env.volumes"]) ∧
    (∃ l1 m l2 params, tr = l1 ++ Event.writeManifest m :: l2 ∧
      Event.projectsRun inp.projectDir inp.entry_point params ∈ l2) := by
  have h2 : (runCmd inp).2 = .ok () := by rw [h]
  obtain ⟨d, de, tag, eps, e, cmd, hu, hde, himg, hcl, hdfm, heps, hep,
    hcmd⟩ := runCmd_ok_inv inp h2
  have hexp := runCmd_trace_explicit inp d de tag eps e cmd hu hde himg
    hcl hdfm heps hep hcmd
  have htr : tr = _ := congrArg Prod.fst (h.symm.trans hexp)
  subst htr
  constructor
  · intro k
    constructor
    · intro hk
      simp [specReadKeys] at *
      tauto
    · intro hk
      simp [specReadKeys] at *
      tauto
  · refine ⟨[Event.mkTempDir inp.projectDir, Event.mkTempDir inp.outputDir,
      Event.copyTree inp.uri inp.projectDir,
      Event.makeArchive (inp.outputDir ++ "/src.zip"),
      Event.readKey "docker_env.image",
      Event.readKey "docker_env.Dockerfile",
      Event.dockerBuild (dockerfileName de) (tag ++ ":" ++ inp.uuid),
      Event.writeManifest
        { docker_env := some
            { image := some (tag ++ ":" ++ inp.uuid),
              dockerfileKey := de.dockerfileKey, volumes := de.volumes },
          entry_points := some eps },
      Event.writeFile (inp.outputDir ++ "/docker.stdout.txt")
        (streamConcat inp.buildLogs),
      Event.readKey "docker_env.volumes",
      Event.readKey ("entry_points." ++ inp.entry_point ++ ".command"),
      Event.writeFile (inp.projectDir ++ "/wrapper.sh") (wrapperText cmd)],
      { docker_env := some
          { image := some (tag ++ ":" ++ inp.uuid),
            dockerfileKey := de.dockerfileKey,
            volumes := some
              (de.volumes.getD [] ++ [inp.outputDir ++ ":/output"]) },
        entry_points := some
          (setCommand eps inp.entry_point "bash wrapper.sh") },
      [Event.projectsRun inp.projectDir inp.entry_point d,
       Event.startRun inp.runId,
       Event.logArtifact (inp.outputDir ++ "/src.zip") none,
       Event.logArtifact (inp.outputDir ++ "/docker.stdout.txt")
         (some "logs"),
       Event.logArtifact (inp.outputDir ++ "/stdout.txt") (some "logs"),
       Event.logArtifact (inp.outputDir ++ "/stderr.txt") (some "logs"),
       Event.rmTempDir inp.outputDir, Event.rmTempDir inp.projectDir],
      d, rfl, ?_⟩
    simp

theorem C4_manifest_io_witness :
    Event.readKey "docker_env.volumes" ∈ (runCmd demoInp).1 ↔
      "docker_env.volumes" ∈
        specReadKeys demoInp.entry_point ++ ["docker_env.volumes"] :=
  (C4_manifest_io demoInp (runCmd demoInp).1 rfl).1 "docker_env.volumes"
